import Mathlib

/-!
Shallow embedding of `cute_server.js` (CUTE cryostat position-control server).

Numbers that the JavaScript source manipulates as IEEE doubles are modelled as
exact rationals (`ℚ`); all the constants of the program are decimal literals,
so every comparison made by the embedded code paths is exact.  Strings are
modelled as `List Char`.  Side effects (USB writes, WebSocket broadcasts,
log lines) are modelled as explicit event lists; file/console logging and the
raw socket handles are not observable by any claim and are omitted.
-/

/-! ## Constants (from the top of cute_server.js) -/

/-- Position history length (`kPosHisLen`). -/
def kPosHisLen : ℕ := 600

/-- Number of bad polls before deactivating (`kMaxBadPolls`). -/
def kMaxBadPolls : ℕ := 3

/-- Number of limit switches polled (`kNumLimit`). -/
def kNumLimit : ℕ := 6

/-- Even limit-switch indices are top switches (`kTopLimit`). -/
def kTopLimit : ℕ := 0

/-- Odd limit-switch indices are bottom switches (`kBotLimit`). -/
def kBotLimit : ℕ := 1

/-- Digital value when a limit switch is hit (`kHitLimit`). -/
def kHitLimit : ℕ := 0

/-- Digital value when a limit switch is not activated (`kNotLimit`). -/
def kNotLimit : ℕ := 1

/-- Nominal damper load, kg (`kLoadNom`). -/
def kLoadNom : ℚ := 35

/-- Maximum damper load, kg (`kLoadMax`). -/
def kLoadMax : ℚ := 50

/-- Minimum damper load, kg (`kLoadMin`). -/
def kLoadMin : ℚ := 20

/-- Damper load tolerance, kg (`kLoadTol`). -/
def kLoadTol : ℚ := 5

/-- Nominal position of damper top, mm (`kPositionNom`). -/
def kPositionNom : ℚ := 1

/-- Tolerance in damper position, mm (`kPositionTol = 0.1`). -/
def kPositionTol : ℚ := 1/10

/-- Drive fast when further away than this, mm (`kPositionFast = 0.4`). -/
def kPositionFast : ℚ := 4/10

/-- Slowest drive speed, steps/s (`kMotorSlow`). -/
def kMotorSlow : ℚ := 50

/-- Medium drive speed, steps/s (`kMotorMed`). -/
def kMotorMed : ℚ := 200

/-- Fast drive speed, steps/s (`kMotorFast`). -/
def kMotorFast : ℚ := 1000

/-- Motor steps per mm of stage travel (`kMotorStepsPer_mm = 4266.667`). -/
def kMotorStepsPer_mm : ℚ := 4266667/1000

/-- Maximum error in motor position, mm (`kMotorTol`). -/
def kMotorTol : ℚ := 1

/-- ADAM state: communication error (`kAdamBad`). -/
def kAdamBad : ℤ := -1

/-- ADAM state: not connected (`kAdamNotConnected`). -/
def kAdamNotConnected : ℤ := 0

/-- ADAM state: missed a response (`kAdamMissed`). -/
def kAdamMissed : ℤ := 1

/-- ADAM state: waiting for a response (`kAdamWaiting`). -/
def kAdamWaiting : ℤ := 2

/-- ADAM state: responded OK (`kAdamOK`). -/
def kAdamOK : ℤ := 3

/-! ## Observable events emitted by the embedded code paths -/

/-- Observable actions of the server: wire commands sent to the AVRs and
messages broadcast to web clients.  `rampCall i q` records the invocation
`RampMotor(i, q)` made by `Drive`; `halt` is the `c.halt` command to slot 0;
`dZero` is the `D 0` broadcast performed by `Deactivate`; `haltMotor m` is the
per-motor `c.mM halt` of the limit-switch handler; `fEmpty` is the empty
`F <t>` broadcast of `PollHardware`; `adamReq` is the Modbus read request;
`avrCmd n` is the per-slot poll command; `logBad`/`processed` record what the
USB data handler does with each response line. -/
inductive Ev where
  | halt : Ev
  | dZero : Ev
  | fEmpty : Ev
  | adamReq : Ev
  | avrCmd : ℕ → Ev
  | rampCall : ℕ → ℚ → Ev
  | haltMotor : ℕ → Ev
  | logBad : List Char → Ev
  | processed : Char → List Char → Ev
  deriving DecidableEq, Repr

/-- Events of `Deactivate()` (cute_server.js lines 578-583): the `c.halt`
wire command is sent only when slot 0 is occupied (`if (avrs[0])`), and
`D 0` is pushed to all web clients.  The function also sets `active = 0`,
which the callers below model. -/
def deactivateEvs (avr0Present : Bool) : List Ev :=
  (if avr0Present then [Ev.halt] else []) ++ [Ev.dZero]

/-! ## Drive (cute_server.js lines 295-360) -/

/-- Speed tier chosen by `Drive` from the distance `away = |pos - kPositionNom|`
(cute_server.js lines 347-354). -/
def speedTier (away : ℚ) : ℚ :=
  if away > kPositionFast then kMotorFast
  else if away > kPositionTol then kMotorMed
  else kMotorSlow

/-- Server state read and written by `Drive` (a slice of the script's global
variables).  Arrays are modelled as functions from the index. -/
structure DriveState where
  motorPos : ℕ → ℚ
  stagePosition : ℕ → ℚ
  damperPosition : ℕ → ℚ
  damperLoad : ℕ → ℚ
  motorSpd : ℕ → ℚ
  limitSwitch : ℕ → ℕ
  active : ℤ
  avr0Present : Bool

/-- The decision table of `Drive` for axis `i` (cute_server.js lines
304-340): the pair is (the `RampMotor(i, 0)` stop invocations made inside the
table, the resulting `drive` value in {-1, 0, +1}). -/
def driveDecision (s : DriveState) (i : ℕ) : List Ev × ℚ :=
  let pos := s.damperPosition i
  let load := s.damperLoad i
  if load > kLoadMax then ([], -1)
  else if load < kLoadMin then ([], 1)
  else if pos < kPositionNom - kPositionTol ∧ load < kLoadMax - kLoadTol then ([], 1)
  else if pos > kPositionNom + kPositionTol ∧ load > kLoadMin + kLoadTol then ([], -1)
  else if s.motorSpd i > 0 then
    (if pos ≥ kPositionNom ∨ load > kLoadMax - kLoadTol then ([Ev.rampCall i 0], 0)
     else ([], 1))
  else if s.motorSpd i < 0 then
    (if pos ≤ kPositionNom ∨ load < kLoadMin + kLoadTol then ([Ev.rampCall i 0], 0)
     else ([], -1))
  else if s.active = 2 then
    (if pos < kPositionNom then ([], 1)
     else if pos > kPositionNom then ([], -1)
     else ([], 0))
  else ([], 0)

/-- One iteration of the `for` loop of `Drive` for axis `i`
(cute_server.js lines 297-358).  `none` means the motor-position consistency
check failed and the function deactivates and returns; `some evs` are the
`RampMotor` invocations made for this axis (the stop invocations of the
decision table, then the limit-gated drive invocation at the tier speed). -/
def driveAxis (s : DriveState) (i : ℕ) : Option (List Ev) :=
  if |s.motorPos i / kMotorStepsPer_mm - s.stagePosition i| > kMotorTol then none
  else
    let sd := driveDecision s i
    let gate : List Ev :=
      if (sd.2 > 0 ∧ s.limitSwitch (2*i + kTopLimit) = kNotLimit) ∨
         (sd.2 < 0 ∧ s.limitSwitch (2*i + kBotLimit) = kNotLimit) then
        [Ev.rampCall i (sd.2 * speedTier |s.damperPosition i - kPositionNom|)]
      else []
    some (sd.1 ++ gate)

/-- The body of `Drive()` (cute_server.js lines 295-360): the three axes in
order with the early `return` of the consistency check; afterwards a STARTING
(`active == 2`) control demotes to ON (`active = 1`). -/
def Drive (s : DriveState) : DriveState × List Ev :=
  match driveAxis s 0 with
  | none => ({ s with active := 0 }, deactivateEvs s.avr0Present)
  | some e0 =>
    match driveAxis s 1 with
    | none => ({ s with active := 0 }, e0 ++ deactivateEvs s.avr0Present)
    | some e1 =>
      match driveAxis s 2 with
      | none => ({ s with active := 0 }, e0 ++ e1 ++ deactivateEvs s.avr0Present)
      | some e2 =>
        ({ s with active := if s.active = 2 then 1 else s.active }, e0 ++ e1 ++ e2)

/-- Whether the event list contains a `RampMotor` invocation for axis `i`. -/
def hasRampFor (i : ℕ) (evs : List Ev) : Bool :=
  evs.any fun e =>
    match e with
    | Ev.rampCall j _ => j == i
    | _ => false

/-! ## PollHardware (cute_server.js lines 185-258) -/

/-- The slice of global state read and written by `PollHardware`. -/
structure PollState where
  adamState : ℤ
  avrOK0 : Bool
  active : ℤ
  badPolls : ℕ
  fullPoll : Bool
  deriving DecidableEq, Repr

/-- Hardware events that may arrive between two scheduler ticks: a 25-byte
ADAM response (its handler sets `adamState = kAdamOK`), and a well-formed
response from the slot-0 AVR (the data handler sets `avrOK[0] = 1`). -/
structure PollInp where
  adamData : Bool
  avr0Data : Bool
  deriving DecidableEq, Repr

/-- Apply the between-tick hardware responses to the poll state. -/
def applyInterTick (inp : PollInp) (s : PollState) : PollState :=
  let s1 := if inp.adamData then { s with adamState := kAdamOK } else s
  if inp.avr0Data then { s1 with avrOK0 := true } else s1

/-- The `bad` condition computed by `PollHardware` (lines 191-201):
`'Adam'` when `adamState != kAdamOK`, else `'AVR0'` when `!avrOK[0]`. -/
def isBadPoll (s : PollState) : Bool :=
  !(s.adamState == kAdamOK) || !s.avrOK0

/-- One tick of `PollHardware()` (cute_server.js lines 185-258) for the parts
that touch the modelled state: toggle `fullPoll`, broadcast an empty `F`
sample when the ADC is not OK on a full poll, maintain the `badPolls` counter
and deactivate after `kMaxBadPolls` bad polls while active, advance the ADAM
request state machine, and clear/poll the slot-0 AVR liveness flag.  The
`AddToHistory(0)` call and socket reconnection of the not-OK branch only touch
state modelled elsewhere and are represented by the `fEmpty` event. -/
def pollTick (avr0Present : Bool) (s : PollState) : PollState × List Ev :=
  let fp := !s.fullPoll
  let histEvs := if s.adamState ≠ kAdamOK ∧ fp = true then [Ev.fEmpty] else []
  let bad := isBadPoll s
  let badPolls2 := if bad then (if s.badPolls < kMaxBadPolls then s.badPolls + 1 else s.badPolls) else 0
  let deact := bad = true ∧ s.active ≠ 0 ∧ kMaxBadPolls ≤ badPolls2
  let active2 : ℤ := if deact then 0 else s.active
  let deactEvs := if deact then deactivateEvs avr0Present else []
  let adamPair : ℤ × List Ev :=
    if s.adamState = kAdamWaiting ∨ s.adamState = kAdamOK then
      ((if s.adamState = kAdamOK then kAdamWaiting else kAdamMissed), [Ev.adamReq])
    else if s.adamState = kAdamNotConnected then (kAdamBad, [])
    else (s.adamState, [])
  let avrOK02 := if avr0Present then false else s.avrOK0
  let avrEvs := if avr0Present then [Ev.avrCmd 0] else []
  ({ adamState := adamPair.1, avrOK0 := avrOK02, active := active2,
     badPolls := badPolls2, fullPoll := fp },
   histEvs ++ deactEvs ++ adamPair.2 ++ avrEvs)

/-- State after one tick preceded by its between-tick hardware responses. -/
def tickStep (avr0Present : Bool) (inp : PollInp) (s : PollState) : PollState :=
  (pollTick avr0Present (applyInterTick inp s)).1

/-! ## RampMotor (cute_server.js lines 960-975) -/

/-- A wire command produced by `RampMotor`: an optional leading
`c.mN dir <d>` prefix and the `c.mN ramp <abs>` command. -/
structure Wire where
  dirCmd : Option ℕ
  motor : ℕ
  rampAbs : ℚ
  deriving DecidableEq, Repr

/-- The body of `RampMotor(n, spd)` (cute_server.js lines 960-975).  It reads
the reported speed `motorSpd[n]` and direction `motorDir[n]` but never writes
them (they are updated only by `f.` feedback responses), and it either sends
one wire command or nothing.  Hence a second successive call evaluates this
same function on the same state. -/
def RampMotor (motorSpd : ℕ → ℚ) (motorDir : ℕ → ℕ) (n : ℕ) (spd : ℚ) : Option Wire :=
  if motorSpd n = spd then none
  else
    let spd2 := if motorSpd n * spd < 0 then 0 else spd
    let changeDir : Option ℕ :=
      if motorSpd n * spd < 0 then none
      else if motorSpd n = 0 ∧ spd ≠ 0 then
        (let dir : ℕ := if spd > 0 then 0 else 1
         if dir ≠ motorDir n then some dir else none)
      else none
    some { dirCmd := changeDir, motor := n, rampAbs := |spd2| }

/-! ## String helpers used by the response handlers -/

/-- First index of `pat` as a substring (JavaScript `String.indexOf`; `none`
models the return value -1).  Empty patterns are not used by the server. -/
def idxOf (pat : List Char) : List Char → Option ℕ
  | [] => none
  | c :: rest =>
    if (c :: rest).take pat.length == pat then some 0
    else (idxOf pat rest).map (fun k => k + 1)

/-- The characters of the `'VAL='` marker searched for by the limit-switch
handler. -/
def valPat : List Char := ['V', 'A', 'L', '=']

/-! ## Limit-switch poll handler: HandleResponse case 'g'
(cute_server.js lines 913-944) -/

/-- Point update of the `limitSwitch` array. -/
def updLS (ls : ℕ → ℕ) (k : ℕ) (v : ℕ) : ℕ → ℕ :=
  fun m => if m = k then v else ls m

/-- The safety-fallback loop `for (k=0; k<kNumLimit; ++k) limitSwitch[k] =
kHitLimit` of the malformed branch. -/
def setAllHit (ls : ℕ → ℕ) : ℕ → ℕ :=
  fun k => if k < kNumLimit then kHitLimit else ls k

/-- One iteration of the well-formed branch's loop over switch `k`
(cute_server.js lines 923-942).  `msg.substr(j+4+k, 1) == kNotLimit` is true
in JavaScript exactly when that character is `'1'` (an out-of-range `substr`
yields `''`, which does not equal 1). -/
def gStep (msg : List Char) (j : ℕ) (motorSpd : ℕ → ℚ)
    (acc : (ℕ → ℕ) × List Ev) (k : ℕ) : (ℕ → ℕ) × List Ev :=
  if msg.get? (j + 4 + k) = some '1' then (updLS acc.1 k kNotLimit, acc.2)
  else
    let mot := k / 2
    let evs : List Ev :=
      if motorSpd mot = 0 then []
      else if k % 2 = kBotLimit then
        (if motorSpd mot > 0 then [] else [Ev.haltMotor mot])
      else
        (if motorSpd mot < 0 then [] else [Ev.haltMotor mot])
    (updLS acc.1 k kHitLimit, acc.2 ++ evs)

/-- The `case 'g'` handler of `HandleResponse` (cute_server.js lines
913-944): find `'VAL='`; if absent (`j < 0`) or `msg.length - j < kNumLimit`,
send `c.halt` and conservatively mark every switch HIT; otherwise decode the
`kNumLimit` switch values and halt individual motors driving into a hit
switch.  Returns the new `limitSwitch` array and the emitted commands. -/
def handleG (msg : List Char) (motorSpd : ℕ → ℚ) (limitSwitch : ℕ → ℕ) :
    (ℕ → ℕ) × List Ev :=
  match idxOf valPat msg with
  | none => (setAllHit limitSwitch, [Ev.halt])
  | some j =>
    if msg.length - j < kNumLimit then (setAllHit limitSwitch, [Ev.halt])
    else (List.range kNumLimit).foldl (gStep msg j motorSpd) (limitSwitch, [])

/-- Whether the first `kNumLimit` limit switches all read HIT. -/
def allHit (ls : ℕ → ℕ) : Bool :=
  (List.range kNumLimit).all fun k => ls k == kHitLimit

/-! ## USB data framing: HandleData (cute_server.js lines 756-790) -/

/-- Truncate at the first NUL, as `str.indexOf('\0')` / `str.substr(0, j)`
does (no NUL leaves the string unchanged). -/
def stripNul (s : List Char) : List Char :=
  s.takeWhile fun c => c ≠ Char.ofNat 0

/-- JavaScript `str.split("\n")`. -/
def splitNL : List Char → List (List Char)
  | [] => [[]]
  | c :: rest =>
    if c = '\n' then [] :: splitNL rest
    else
      match splitNL rest with
      | [] => [[c]]
      | l :: ls => (c :: l) :: ls

/-- The per-line loop of `HandleData` (cute_server.js lines 770-789).  The
response ID variable `id` is declared outside the loop, so it persists from
line to line within one packet; a line of length ≥ 4 whose second character
is `'.'` re-binds it.  Lines under an ID other than `'e'` must carry an `OK`
prefix (else they are logged as bad and skipped) and lose `'OK '`; a line
reached while `id` is still unset is skipped.  Every surviving line is handed
to `HandleResponse` with the current ID (`Ev.processed`). -/
def handleDataLines : Option Char → List (List Char) → List Ev
  | _, [] => []
  | id, line :: rest =>
    if line.length = 0 then handleDataLines id rest
    else
      let p : Option Char × List Char :=
        if 4 ≤ line.length ∧ line.get? 1 = some '.' then (line.head?, line.drop 2)
        else (id, line)
      if p.1 ≠ some 'e' then
        if p.2.take 2 ≠ ['O', 'K'] then Ev.logBad p.2 :: handleDataLines p.1 rest
        else
          match p.1 with
          | none => handleDataLines p.1 rest
          | some c => Ev.processed c (p.2.drop 3) :: handleDataLines p.1 rest
      else Ev.processed 'e' p.2 :: handleDataLines p.1 rest

/-- `HandleData` for one incoming USB packet (cute_server.js lines 756-790):
strip at the first NUL, split on newlines, and process each response line. -/
def HandleData (packet : List Char) : List Ev :=
  handleDataLines none (splitNL (stripNul packet))

/-- The update of the loop's `id` variable by one line (cute_server.js lines
772-776): an empty line is skipped, a line of length ≥ 4 whose second
character is `'.'` re-binds `id` to its first character, and any other line
leaves `id` unchanged. -/
def lineId (id : Option Char) (line : List Char) : Option Char :=
  if line.length = 0 then id
  else if 4 ≤ line.length ∧ line.get? 1 = some '.' then line.head?
  else id

/-- The response ID retained by the loop after processing a list of lines. -/
def lastId (id : Option Char) : List (List Char) → Option Char
  | [] => id
  | line :: rest => lastId (lineId id line) rest

/-- The events `HandleData` emits for a single non-empty line lacking the
`ID.` prefix, as a function of the retained response ID (cute_server.js lines
777-788): under a retained `'e'` the line is operator output; under another
retained ID it needs an `OK` prefix (else it is logged as a bad response and
skipped) and is then handed to `HandleResponse` with `'OK '` stripped; with
no retained ID it is logged bad or, if `OK`-prefixed, silently dropped. -/
def contEvents (id : Option Char) (t : List Char) : List Ev :=
  if id ≠ some 'e' then
    if t.take 2 ≠ ['O', 'K'] then [Ev.logBad t]
    else
      match id with
      | none => []
      | some c => [Ev.processed c (t.drop 3)]
  else [Ev.processed 'e' t]

/-- The events `HandleData` emits for one line (any shape), as a function of
the retained response ID; the loop body of cute_server.js lines 770-789
restated line-locally. -/
def oneLineEvents (id : Option Char) (line : List Char) : List Ev :=
  if line.length = 0 then []
  else
    let p : Option Char × List Char :=
      if 4 ≤ line.length ∧ line.get? 1 = some '.' then (line.head?, line.drop 2)
      else (id, line)
    if p.1 ≠ some 'e' then
      if p.2.take 2 ≠ ['O', 'K'] then [Ev.logBad p.2]
      else
        match p.1 with
        | none => []
        | some c => [Ev.processed c (p.2.drop 3)]
    else [Ev.processed 'e' p.2]

/-! ## Calibration interpolation: Calculate (cute_server.js lines 262-291) -/

/-- The per-channel linear-interpolation loop of `Calculate` (cute_server.js
lines 267-272).  The source stores each table as a flat array of raw/cal
pairs sorted by increasing raw value; here a table is the list of those
`(raw, cal)` pairs.  The loop stops at the first segment whose upper raw
anchor is ≥ the raw reading, or at the last segment
(`j + 4 >= cal.length`), and evaluates that segment's line. -/
def interpolate (cal : List (ℚ × ℚ)) (raw : ℚ) : ℚ :=
  match cal with
  | (r0, c0) :: (r1, c1) :: rest =>
    if rest = [] ∨ r1 ≥ raw then c0 + (raw - r0) * (c1 - c0) / (r1 - r0)
    else interpolate ((r1, c1) :: rest) raw
  | _ => 0

/-! ## History ring: AddToHistory (cute_server.js lines 1067-1097) -/

/-- History state.  Each entry additionally carries the wall-clock second it
stands for — a ghost field never read by the embedded code (the source keeps
only the values and associates entry `i` with second `historyTime - i`);
it lets the ring invariant be stated. -/
structure HistState where
  history : List (ℕ × List ℚ)
  historyTime : ℕ
  deriving DecidableEq, Repr

/-- One round of the `while (historyTime < t)` loop of `AddToHistory`:
increment `historyTime`, unshift a fresh empty entry (ghost-stamped with the
new `historyTime`), and pop the tail when the length exceeds `kPosHisLen`. -/
def histStep (s : HistState) : HistState :=
  let ht := s.historyTime + 1
  let pushed := (ht, ([] : List ℚ)) :: s.history
  { history := if kPosHisLen < pushed.length then pushed.dropLast else pushed,
    historyTime := ht }

/-- The `while (historyTime < t)` loop of `AddToHistory`, run `n` times. -/
def advanceN : ℕ → HistState → HistState
  | 0, s => s
  | n + 1, s => advanceN n (histStep s)

/-- JavaScript array element assignment `entry[n] = v`, extending with
(hole) elements when `n` is past the end. -/
def setExtend (l : List ℚ) (n : ℕ) (v : ℚ) : List ℚ :=
  if n < l.length then l.set n v else l ++ List.replicate (n - l.length) 0 ++ [v]

/-- The `for (j=0; j<3; ++j) entry[j+i] = vals[j]` copy of `AddToHistory`. -/
def writeVals (entry : List ℚ) (i : ℕ) (vs : List ℚ) : List ℚ :=
  (List.range 3).foldl (fun e j => setExtend e (j + i) (vs.getD j 0)) entry

/-- `AddToHistory(i, vals)` (cute_server.js lines 1067-1097) at wall-clock
second `t` (the source computes `t = Math.ceil(Date.now()/1000)`): create the
first entry when the ring is empty, otherwise advance up to `t`; when values
are supplied, write them into the head entry.  Returns the new state and `t`. -/
def AddToHistory (t : ℕ) (i : ℕ) (vals : Option (List ℚ)) (s : HistState) :
    HistState × ℕ :=
  let s1 := if s.history.isEmpty then { history := [(t, [])], historyTime := t }
            else advanceN (t - s.historyTime) s
  let s2 :=
    match vals with
    | none => s1
    | some vs =>
      { s1 with history :=
          match s1.history with
          | [] => []
          | e :: rest => (e.1, writeVals e.2 i vs) :: rest }
  (s2, t)

/-- The history-ring invariant: at most `kPosHisLen` entries, and the entry at
index `j` stands for wall-clock second `historyTime - j` (the head is second
`historyTime`). -/
def HistInv (s : HistState) : Prop :=
  s.history.length ≤ kPosHisLen ∧
    ∀ j < s.history.length, (s.history.getD j (0, [])).1 = s.historyTime - j

/-! ## History replay to a new observer
(cute_server.js lines 412-417) -/

/-- A `B <seq> v0 v1 v2` message. -/
structure BMsg where
  seq : ℕ
  vals : List ℚ
  deriving DecidableEq, Repr

/-- The replay loop `for (i = history.length-1; i >= 0; --i)` of
`HandleClientRequest`: `replayAux h T n` emits the messages for indices
`n-1` down to `0`, skipping entries with fewer than 3 values, with sequence
number `(historyTime - i) % kPosHisLen`. -/
def replayAux (history : List (List ℚ)) (historyTime : ℕ) : ℕ → List BMsg
  | 0 => []
  | n + 1 =>
    (if (history.getD n []).length < 3 then []
     else [{ seq := (historyTime - n) % kPosHisLen, vals := history.getD n [] }]) ++
    replayAux history historyTime n

/-- The full replay a newly connected observer receives. -/
def replayHistory (history : List (List ℚ)) (historyTime : ℕ) : List BMsg :=
  replayAux history historyTime history.length

/-- Modelled from the spec, amended: one `B` message per non-empty entry,
walking the entries from the highest index (the oldest entry) down to index 0
(the newest), with `seq = (historyTime - i) % kPosHisLen`. -/
def replayOldestFirst (history : List (List ℚ)) (historyTime : ℕ) : List BMsg :=
  ((List.range history.length).reverse).filterMap fun i =>
    if 3 ≤ (history.getD i []).length then
      some { seq := (historyTime - i) % kPosHisLen, vals := history.getD i [] }
    else none

/-! ## Client command plane: HandleServerCommand
(cute_server.js lines 79-83 and 427-534) -/

/-- The configured IP allow-list (cute_server.js lines 79-83): keys `'*'`,
`'localhost'`, `'130.15.24.88'`, all with truthy values. -/
def authorizedTable (addr : List Char) : Bool :=
  addr == "*".toList || addr == "localhost".toList || addr == "130.15.24.88".toList

/-- JavaScript `String.trim` (whitespace from both ends). -/
def jsTrim (s : List Char) : List Char :=
  ((s.dropWhile Char.isWhitespace).reverse.dropWhile Char.isWhitespace).reverse

/-- The command/argument split of `HandleServerCommand` (cute_server.js lines
441-449): on `i = indexOf(':') > 0` the command is the lowercased trimmed
prefix and the argument the trimmed suffix, else the whole message is the
command and the argument is empty. -/
def parseCmd (m : List Char) : List Char × List Char :=
  match idxOf [':'] m with
  | some i =>
    if 0 < i then ((jsTrim (m.take i)).map Char.toLower, jsTrim (m.drop (i + 1)))
    else ((jsTrim m).map Char.toLower, [])
  | none => ((jsTrim m).map Char.toLower, [])

/-- WebSocket message kinds distinguished by `HandleServerCommand`. -/
inductive MsgType where
  | utf8 : MsgType
  | binary : MsgType
  | other : MsgType
  deriving DecidableEq, Repr

/-- Outcome of `HandleServerCommand` as far as the authorization gate is
concerned. -/
inductive CmdResult where
  | unknownClient : CmdResult
  | notAuthorized : CmdResult
  | handled : List Char → List Char → CmdResult
  | binaryEcho : CmdResult
  | unknownType : CmdResult
  deriving DecidableEq, Repr

/-- The entry of `HandleServerCommand` (cute_server.js lines 427-450) up to
command dispatch: reject messages from connections without a name, then for
utf8 messages apply the authorization check
`!authorized[GetAddr(this)] && !authorized['*']`, and on success split the
message into command and argument. -/
def HandleServerCommand (cuteName addr : List Char) (msgType : MsgType)
    (msg : List Char) : CmdResult :=
  if cuteName.length = 0 then .unknownClient
  else
    match msgType with
    | .utf8 =>
      if !authorizedTable addr && !authorizedTable ("*".toList) then .notAuthorized
      else CmdResult.handled (parseCmd msg).1 (parseCmd msg).2
    | .binary => .binaryEcho
    | .other => .unknownType

/-! ## Concrete states used by witnesses and counterexamples -/

/-- Drive state with motor 0 diverged from the measured stage position. -/
def c1s : DriveState :=
  { motorPos := fun _ => 0, stagePosition := fun _ => 5,
    damperPosition := fun _ => 1, damperLoad := fun _ => 35,
    motorSpd := fun _ => 0, limitSwitch := fun _ => 1,
    active := 1, avr0Present := true }

/-- Drive state with damper 0 over-loaded (55 kg) while the damper sits
exactly at the nominal position. -/
def c4s : DriveState :=
  { motorPos := fun _ => 0, stagePosition := fun _ => 0,
    damperPosition := fun _ => 1, damperLoad := fun i => if i = 0 then 55 else 35,
    motorSpd := fun _ => 0, limitSwitch := fun _ => 1,
    active := 1, avr0Present := true }

/-- Poll state: active, counter clear, ADAM in error state. -/
def c2s : PollState :=
  { adamState := kAdamBad, avrOK0 := false, active := 1, badPolls := 0, fullPoll := false }

/-- Three-sample history of the spec's replay scenario: index 0 is the newest
entry (second T+2, values 3 3 3), index 2 the oldest (second T, values 1 1 1). -/
def hist3 : List (List ℚ) := [[3, 3, 3], [2, 2, 2], [1, 1, 1]]

/-! ## Helper lemmas -/

/-- Marking all switches HIT makes `allHit` true. -/
theorem allHit_setAllHit (ls : ℕ → ℕ) : allHit (setAllHit ls) = true := by
  simp only [allHit, setAllHit, List.all_eq_true]
  intro k hk
  rw [List.mem_range] at hk
  simp [hk, kHitLimit]

/-- The replay loop, characterized as a filterMap over the indices walked in
decreasing order. -/
theorem replayAux_eq_filterMap (h : List (List ℚ)) (T : ℕ) (n : ℕ) :
    replayAux h T n =
      ((List.range n).reverse).filterMap (fun i =>
        if 3 ≤ (h.getD i []).length then
          some { seq := (T - i) % kPosHisLen, vals := h.getD i [] }
        else none) := by
  induction n with
  | zero => simp [replayAux]
  | succ n ih =>
    rw [replayAux, ih, List.range_succ, List.reverse_append, List.reverse_singleton,
      List.singleton_append, List.filterMap_cons]
    by_cases hl : (h.getD n []).length < 3
    · rw [if_pos hl, if_neg (by omega : ¬ 3 ≤ (h.getD n []).length)]
      simp
    · rw [if_neg hl, if_pos (by omega : 3 ≤ (h.getD n []).length)]
      simp

/-! ## Claim C3 -/

/-- C3 counterexample: the response `'VAL=01'` carries only two switch-value
characters (fewer than `kNumLimit = 6`), yet the handler takes the normal
branch: no `c.halt` is sent and switch 1 is marked NOT_HIT, so the claim's
consequent fails. -/
theorem c3_counterexample :
    idxOf valPat ("VAL=01".toList) = some 0 ∧
    ("VAL=01".toList).length - (0 + 4) < kNumLimit ∧
    (handleG ("VAL=01".toList) (fun _ => 0) (fun _ => 1)).1 1 = kNotLimit ∧
    Ev.halt ∉ (handleG ("VAL=01".toList) (fun _ => 0) (fun _ => 1)).2 := by
  decide

/-- C3 (amended): for every limit-switch poll response whose message contains
no `'VAL='`, or in which fewer than `kNumLimit` characters remain from the
start of `'VAL='` to the end of the message, the handler sends `c.halt` to
slot 0 and sets every `limitSwitch[k]`, `k < kNumLimit`, to HIT. -/
theorem c3_malformed_poll_halts (msg : List Char) (spd : ℕ → ℚ) (ls : ℕ → ℕ)
    (h : ∀ j, idxOf valPat msg = some j → msg.length - j < kNumLimit) :
    (handleG msg spd ls).2 = [Ev.halt] ∧ allHit (handleG msg spd ls).1 = true := by
  cases hidx : idxOf valPat msg with
  | none => simp [handleG, hidx, allHit_setAllHit]
  | some j =>
    have hj := h j hidx
    simp [handleG, hidx, hj, allHit_setAllHit]

/-- C3 witness: a poll response with no `'VAL='` at all. -/
theorem c3_witness :
    idxOf valPat ("nope".toList) = none ∧
    (handleG ("nope".toList) (fun _ => 0) (fun _ => 1)).2 = [Ev.halt] ∧
    allHit (handleG ("nope".toList) (fun _ => 0) (fun _ => 1)).1 = true := by
  have hn : idxOf valPat ("nope".toList) = none := by decide
  have hmain := c3_malformed_poll_halts ("nope".toList) (fun _ => 0) (fun _ => 1)
    (fun j hj => by rw [hn] at hj; exact Option.noConfusion hj)
  exact ⟨hn, hmain.1, hmain.2⟩

/-! ## Claim C5 -/

/-- C5 counterexample: with the three-sample history of the spec scenario
(`T = 1000`, `historyTime = T+2 = 1002`), the first replay message a new
observer receives is the oldest entry `B (T mod 600) 1 1 1`, not the newest
entry `B ((T+2) mod 600) 3 3 3` as the claim states. -/
theorem c5_counterexample :
    replayHistory hist3 1002 =
      [{ seq := 400, vals := [1, 1, 1] }, { seq := 401, vals := [2, 2, 2] },
       { seq := 402, vals := [3, 3, 3] }] ∧
    (replayHistory hist3 1002).head? ≠ some { seq := 402, vals := [3, 3, 3] } := by
  decide

/-- C5 (amended): a newly connected observer receives exactly one
`B <seq> v0 v1 v2` message for each non-empty history entry and none for the
empty entries, with `seq = (historyTime - i) % kPosHisLen` for the entry at
index `i`, ordered OLDEST entry first (the loop walks indices from
`history.length - 1` down to `0`, and index 0 is the newest entry); with three
consecutive samples at seconds T, T+1, T+2 the observer receives the T entry
first and the T+2 entry last. -/
theorem c5_replay_order :
    (∀ (h : List (List ℚ)) (T : ℕ), replayHistory h T = replayOldestFirst h T) ∧
    (∀ T : ℕ, replayHistory hist3 (T + 2) =
      [{ seq := T % kPosHisLen, vals := [1, 1, 1] },
       { seq := (T + 1) % kPosHisLen, vals := [2, 2, 2] },
       { seq := (T + 2) % kPosHisLen, vals := [3, 3, 3] }]) := by
  constructor
  · intro h T
    rw [replayHistory, replayOldestFirst, replayAux_eq_filterMap]
  · intro T
    show replayAux hist3 (T + 2) 3 = _
    rw [replayAux, replayAux, replayAux, replayAux]
    have h2 : T + 2 - 2 = T := by omega
    have h1 : T + 2 - 1 = T + 1 := by omega
    simp [hist3, h2, h1]

/-! ## Claim C7 -/

/-- C7 counterexample: with reported speed `motorSpd[0] = 0`, the call
`RampMotor(0, 100)` sends a wire command; since `RampMotor` writes none of the
server state it reads (`motorSpd`/`motorDir` are updated only by `f.`
feedback responses), an immediately repeated call evaluates identically and
sends the same command again — the second call's emission is not `none`. -/
theorem c7_counterexample :
    RampMotor (fun _ => 0) (fun _ => 0) 0 100 =
      some { dirCmd := none, motor := 0, rampAbs := 100 } ∧
    RampMotor (fun _ => 0) (fun _ => 0) 0 100 ≠ none := by
  constructor
  · unfold RampMotor
    norm_num
  · unfold RampMotor
    norm_num
    simp

/-- C7 (amended): `RampMotor` does not update the server-side speed shadow,
so a second successive call behaves exactly like the first; in particular a
call (first or second) produces no wire command if and only if the requested
speed already equals the reported speed `motorSpd[n]`. -/
theorem c7_ramp_no_command_iff (ms : ℕ → ℚ) (md : ℕ → ℕ) (n : ℕ) (s : ℚ) :
    RampMotor ms md n s = none ↔ ms n = s := by
  unfold RampMotor
  split_ifs with h
  · simp [h]
  · simp [h]

/-! ## Claim C10 -/

/-- C10: because the configured allow-list contains the wildcard entry `'*'`,
the authorization check of `HandleServerCommand` never rejects a utf8 command
from a named (connected) observer: the `not authorized` branch is unreachable
and the command is split and processed. -/
theorem c10_wildcard_authorization (name addr msg : List Char) (h : name ≠ []) :
    HandleServerCommand name addr MsgType.utf8 msg ≠ CmdResult.notAuthorized ∧
    HandleServerCommand name addr MsgType.utf8 msg =
      CmdResult.handled (parseCmd msg).1 (parseCmd msg).2 := by
  have hname : ¬ name.length = 0 := by
    simpa [List.length_eq_zero] using h
  unfold HandleServerCommand
  simp [hname]
  intro _
  decide

/-- C10 witness: a concrete unauthorized-looking address still gets its
command processed. -/
theorem c10_witness :
    ("x".toList ≠ []) ∧
    (HandleServerCommand ("x".toList) ("9.9.9.9".toList) MsgType.utf8
        ("active: on".toList) ≠ CmdResult.notAuthorized ∧
      HandleServerCommand ("x".toList) ("9.9.9.9".toList) MsgType.utf8
        ("active: on".toList) =
        CmdResult.handled (parseCmd ("active: on".toList)).1
          (parseCmd ("active: on".toList)).2) :=
  ⟨by decide, c10_wildcard_authorization _ _ _ (by decide)⟩

/-! ## Claims C1 and C4: the Drive control step -/

/-- Splitting `hasRampFor` over an append of event lists. -/
theorem hasRampFor_append (i : ℕ) (a b : List Ev) :
    hasRampFor i (a ++ b) = (hasRampFor i a || hasRampFor i b) := by
  simp [hasRampFor, List.any_append]

/-- Deactivation emits no `RampMotor` invocation. -/
theorem hasRampFor_deact (i : ℕ) (p : Bool) : hasRampFor i (deactivateEvs p) = false := by
  cases p <;> simp [deactivateEvs, hasRampFor]

/-- The stop events of the decision table for axis `j` are all
`RampMotor(j, 0)` invocations. -/
theorem driveDecision_mem (s : DriveState) (j : ℕ) :
    ∀ x ∈ (driveDecision s j).1, x = Ev.rampCall j 0 := by
  intro x hx
  unfold driveDecision at hx
  simp only [apply_ite (Prod.fst : List Ev × ℚ → List Ev)] at hx
  repeat' split at hx
  all_goals simp_all

/-- The decision table for axis `j` only emits stop invocations for axis `j`. -/
theorem driveDecision_ramp_only (s : DriveState) (ii j : ℕ) (hij : ii ≠ j) :
    hasRampFor ii (driveDecision s j).1 = false := by
  have hji : (j == ii) = false := by
    simp [Ne.symm hij]
  unfold hasRampFor
  rw [List.any_eq_false]
  intro x hx
  rw [driveDecision_mem s j x hx]
  simp [hji]

/-- The events of a full `Drive` pass in which no axis fails the consistency
check are the concatenation of the three per-axis event lists. -/
theorem Drive_snd_of_some (s : DriveState) (e0 e1 e2 : List Ev)
    (h0 : driveAxis s 0 = some e0) (h1 : driveAxis s 1 = some e1)
    (h2 : driveAxis s 2 = some e2) : (Drive s).2 = e0 ++ e1 ++ e2 := by
  unfold Drive
  rw [h0, h1, h2]

/-- The events emitted by the drive step for axis `j` only invoke `RampMotor`
on axis `j`. -/
theorem driveAxis_ramp_only (s : DriveState) (ii j : ℕ) (l : List Ev)
    (hij : ii ≠ j) (hl : driveAxis s j = some l) : hasRampFor ii l = false := by
  have hji : (j == ii) = false := by
    simp [Ne.symm hij]
  by_cases hout : |s.motorPos j / kMotorStepsPer_mm - s.stagePosition j| > kMotorTol
  · rw [driveAxis, if_pos hout] at hl
    exact Option.noConfusion hl
  · rw [driveAxis, if_neg hout] at hl
    simp only [Option.some.injEq] at hl
    subst hl
    rw [hasRampFor_append, driveDecision_ramp_only s ii j hij, Bool.false_or]
    split
    · simp [hasRampFor, hji]
    · simp [hasRampFor]

/-- C1: while position control is active, if the hardware-reported position of
motor `i` converted to mm differs from `stagePosition[i]` by more than
`kMotorTol`, processing the ADC sample deactivates control — `active` becomes
OFF, `c.halt` is sent to slot 0 (which is occupied), `D 0` is broadcast — and
no `RampMotor` drive decision is made for axis `i`. -/
theorem c1_divergence_deactivates (s : DriveState) (hact : s.active ≠ 0)
    (hp : s.avr0Present = true) (i : ℕ) (hi : i < 3)
    (hdiv : |s.motorPos i / kMotorStepsPer_mm - s.stagePosition i| > kMotorTol) :
    (Drive s).1.active = 0 ∧ Ev.halt ∈ (Drive s).2 ∧ Ev.dZero ∈ (Drive s).2 ∧
    hasRampFor i (Drive s).2 = false := by
  have hnone : driveAxis s i = none := by
    unfold driveAxis
    rw [if_pos hdiv]
  interval_cases i
  · unfold Drive
    rw [hnone]
    exact ⟨rfl, by simp [deactivateEvs, hp], by simp [deactivateEvs],
      hasRampFor_deact 0 s.avr0Present⟩
  · unfold Drive
    cases h0 : driveAxis s 0 with
    | none =>
      exact ⟨rfl, by simp [deactivateEvs, hp], by simp [deactivateEvs],
        hasRampFor_deact 1 s.avr0Present⟩
    | some e0 =>
      rw [hnone]
      refine ⟨rfl, by simp [deactivateEvs, hp], by simp [deactivateEvs], ?_⟩
      rw [hasRampFor_append, driveAxis_ramp_only s 1 0 e0 (by omega) h0,
        hasRampFor_deact]
      rfl
  · unfold Drive
    cases h0 : driveAxis s 0 with
    | none =>
      exact ⟨rfl, by simp [deactivateEvs, hp], by simp [deactivateEvs],
        hasRampFor_deact 2 s.avr0Present⟩
    | some e0 =>
      cases h1 : driveAxis s 1 with
      | none =>
        refine ⟨rfl, by simp [deactivateEvs, hp], by simp [deactivateEvs], ?_⟩
        rw [hasRampFor_append, driveAxis_ramp_only s 2 0 e0 (by omega) h0,
          hasRampFor_deact]
        rfl
      | some e1 =>
        rw [hnone]
        refine ⟨rfl, by simp [deactivateEvs, hp], by simp [deactivateEvs], ?_⟩
        rw [hasRampFor_append, hasRampFor_append,
          driveAxis_ramp_only s 2 0 e0 (by omega) h0,
          driveAxis_ramp_only s 2 1 e1 (by omega) h1, hasRampFor_deact]
        rfl

/-- C1 witness: a state in which motor 0 reports 0 steps while the measured
stage position is 5 mm. -/
theorem c1_witness :
    c1s.active ≠ 0 ∧
    |c1s.motorPos 0 / kMotorStepsPer_mm - c1s.stagePosition 0| > kMotorTol ∧
    ((Drive c1s).1.active = 0 ∧ Ev.halt ∈ (Drive c1s).2 ∧
      Ev.dZero ∈ (Drive c1s).2 ∧ hasRampFor 0 (Drive c1s).2 = false) := by
  refine ⟨by decide, ?_, ?_⟩
  · show |(0 : ℚ) / kMotorStepsPer_mm - 5| > kMotorTol
    norm_num [kMotorStepsPer_mm, kMotorTol]
  · exact c1_divergence_deactivates c1s (by decide) rfl 0 (by omega)
      (by show |(0 : ℚ) / kMotorStepsPer_mm - 5| > kMotorTol
          norm_num [kMotorStepsPer_mm, kMotorTol])

/-- C4 counterexample: with control active, `damperLoad[0] = 55 > kLoadMax`,
`limitSwitch[1] = NOT_HIT`, the motor consistency check passing, and the
damper exactly at the nominal position, the drive step for axis 0 invokes
`RampMotor(0, -kMotorSlow)` (i.e. −50 steps/s), not `RampMotor(0, -kMotorFast)`
as the claim states. -/
theorem c4_counterexample :
    c4s.active ≠ 0 ∧ c4s.damperLoad 0 = 55 ∧ c4s.limitSwitch 1 = kNotLimit ∧
    (Drive c4s).2 = [Ev.rampCall 0 (-1 * kMotorSlow)] ∧
    Ev.rampCall 0 (-kMotorFast) ∉ (Drive c4s).2 := by
  have h0 : driveAxis c4s 0 = some [Ev.rampCall 0 (-1 * kMotorSlow)] := by
    rw [driveAxis,
      if_neg (by norm_num [c4s, kMotorStepsPer_mm, kMotorTol] :
        ¬ |c4s.motorPos 0 / kMotorStepsPer_mm - c4s.stagePosition 0| > kMotorTol)]
    have hdec : driveDecision c4s 0 = ([], -1) := by
      rw [driveDecision]
      norm_num [c4s, kLoadMax]
    simp only [hdec]
    rw [if_pos (Or.inr ⟨by norm_num, by norm_num [c4s, kBotLimit, kNotLimit]⟩)]
    norm_num [c4s, speedTier, kPositionNom, kPositionTol, kPositionFast, kMotorSlow]
  have h1 : driveAxis c4s 1 = some [] := by
    rw [driveAxis,
      if_neg (by norm_num [c4s, kMotorStepsPer_mm, kMotorTol] :
        ¬ |c4s.motorPos 1 / kMotorStepsPer_mm - c4s.stagePosition 1| > kMotorTol)]
    have hdec : driveDecision c4s 1 = ([], 0) := by
      rw [driveDecision]
      norm_num [c4s, kLoadMax, kLoadMin, kPositionNom, kPositionTol, kLoadTol]
    simp only [hdec]
    rw [if_neg (by norm_num)]
    rfl
  have h2 : driveAxis c4s 2 = some [] := by
    rw [driveAxis,
      if_neg (by norm_num [c4s, kMotorStepsPer_mm, kMotorTol] :
        ¬ |c4s.motorPos 2 / kMotorStepsPer_mm - c4s.stagePosition 2| > kMotorTol)]
    have hdec : driveDecision c4s 2 = ([], 0) := by
      rw [driveDecision]
      norm_num [c4s, kLoadMax, kLoadMin, kPositionNom, kPositionTol, kLoadTol]
    simp only [hdec]
    rw [if_neg (by norm_num)]
    rfl
  have hdrv : (Drive c4s).2 = [Ev.rampCall 0 (-1 * kMotorSlow)] := by
    rw [Drive_snd_of_some c4s _ _ _ h0 h1 h2]
    simp
  refine ⟨by norm_num [c4s], by norm_num [c4s], by norm_num [c4s, kNotLimit], hdrv, ?_⟩
  rw [hdrv]
  simp only [List.mem_singleton]
  intro h
  rw [Ev.rampCall.injEq] at h
  norm_num [kMotorFast, kMotorSlow] at h

/-- C4 (amended): if control is active, the axis-0 motor/stage consistency
check passes, `damperLoad[0] = 55` (greater than `kLoadMax = 50`), and
`limitSwitch[1]` reads NOT_HIT, then the drive step for axis 0 invokes
`RampMotor(0, -v)` where `v` is the distance-tier speed
`speedTier |damperPosition[0] - kPositionNom|` — `kMotorFast` only when the
damper is more than `kPositionFast` mm from nominal, else `kMotorMed` or
`kMotorSlow`. -/
theorem c4_overload_drives_down (s : DriveState) (hact : s.active ≠ 0)
    (hcons : |s.motorPos 0 / kMotorStepsPer_mm - s.stagePosition 0| ≤ kMotorTol)
    (hload : s.damperLoad 0 = 55) (hlim : s.limitSwitch 1 = kNotLimit) :
    (Drive s).2.head? =
      some (Ev.rampCall 0 (-1 * speedTier |s.damperPosition 0 - kPositionNom|)) := by
  have hdec : driveDecision s 0 = ([], -1) := by
    rw [driveDecision]
    simp only [hload]
    rw [if_pos (show (55 : ℚ) > kLoadMax by norm_num [kLoadMax])]
  have h0 : driveAxis s 0 =
      some [Ev.rampCall 0 (-1 * speedTier |s.damperPosition 0 - kPositionNom|)] := by
    rw [driveAxis, if_neg (not_lt.mpr hcons)]
    simp only [hdec]
    have hgate : (((-1 : ℚ) > 0 ∧ s.limitSwitch (2*0 + kTopLimit) = kNotLimit) ∨
        ((-1 : ℚ) < 0 ∧ s.limitSwitch (2*0 + kBotLimit) = kNotLimit)) := by
      right
      exact ⟨by norm_num, by simpa [kBotLimit] using hlim⟩
    rw [if_pos hgate]
    simp
  unfold Drive
  rw [h0]
  cases h1 : driveAxis s 1 with
  | none => simp
  | some e1 =>
    cases h2 : driveAxis s 2 with
    | none => simp
    | some e2 => simp

/-- C4 witness: the amended claim evaluated at the overloaded state (damper at
nominal position, so the slow tier is selected). -/
theorem c4_witness :
    (c4s.active ≠ 0 ∧
      |c4s.motorPos 0 / kMotorStepsPer_mm - c4s.stagePosition 0| ≤ kMotorTol ∧
      c4s.damperLoad 0 = 55 ∧ c4s.limitSwitch 1 = kNotLimit) ∧
    (Drive c4s).2.head? =
      some (Ev.rampCall 0 (-1 * speedTier |c4s.damperPosition 0 - kPositionNom|)) :=
  ⟨⟨by norm_num [c4s], by norm_num [c4s, kMotorStepsPer_mm, kMotorTol],
    by norm_num [c4s], by norm_num [c4s, kNotLimit]⟩,
   c4_overload_drives_down c4s (by norm_num [c4s])
     (by norm_num [c4s, kMotorStepsPer_mm, kMotorTol]) (by norm_num [c4s])
     (by norm_num [c4s, kNotLimit])⟩

/-! ## Claim C2: bad-poll escalation -/

/-- Between-tick hardware responses do not touch the bad-poll counter. -/
theorem applyInterTick_badPolls (i : PollInp) (s : PollState) :
    (applyInterTick i s).badPolls = s.badPolls := by
  rcases i with ⟨a, b⟩
  cases a <;> cases b <;> simp [applyInterTick]

/-- Between-tick hardware responses do not touch the active flag. -/
theorem applyInterTick_active (i : PollInp) (s : PollState) :
    (applyInterTick i s).active = s.active := by
  rcases i with ⟨a, b⟩
  cases a <;> cases b <;> simp [applyInterTick]

/-- The bad-poll counter after one tick (cute_server.js lines 203-211). -/
theorem pollTick_badPolls (p : Bool) (s : PollState) :
    (pollTick p s).1.badPolls =
      if isBadPoll s then
        (if s.badPolls < kMaxBadPolls then s.badPolls + 1 else s.badPolls)
      else 0 := rfl

/-- The active flag after one tick (cute_server.js lines 203-211). -/
theorem pollTick_active (p : Bool) (s : PollState) :
    (pollTick p s).1.active =
      if (isBadPoll s = true ∧ s.active ≠ 0 ∧ kMaxBadPolls ≤
          (if isBadPoll s then
            (if s.badPolls < kMaxBadPolls then s.badPolls + 1 else s.badPolls)
           else 0))
      then 0 else s.active := rfl

/-- When the deactivation condition of a tick holds, every event of
`Deactivate` is among the tick's emitted events. -/
theorem pollTick_mem_deact (p : Bool) (s : PollState)
    (hc : isBadPoll s = true ∧ s.active ≠ 0 ∧ kMaxBadPolls ≤
      (if isBadPoll s then
        (if s.badPolls < kMaxBadPolls then s.badPolls + 1 else s.badPolls)
       else 0)) :
    ∀ e ∈ deactivateEvs p, e ∈ (pollTick p s).2 := by
  intro e he
  simp only [pollTick]
  rw [if_pos hc]
  simp [List.mem_append, he]

/-- C2: starting from a clear bad-poll counter with control active (ON or
STARTING), three consecutive scheduler ticks whose polls are bad (ADC state
not OK, or slot-0 controller not acknowledged) deactivate the system on the
third tick: `active` becomes OFF and that tick sends `c.halt` to the occupied
slot 0 and broadcasts `D 0`; and any tick whose poll is good resets the
bad-poll counter to 0. -/
theorem c2_bad_poll_escalation
    (s1 : PollState) (i1 i2 i3 : PollInp) (sR : PollState) (iR : PollInp)
    (h0 : s1.badPolls = 0) (ha : s1.active ≠ 0)
    (hb1 : isBadPoll (applyInterTick i1 s1) = true)
    (hb2 : isBadPoll (applyInterTick i2 (tickStep true i1 s1)) = true)
    (hb3 : isBadPoll (applyInterTick i3 (tickStep true i2 (tickStep true i1 s1))) = true)
    (hg : isBadPoll (applyInterTick iR sR) = false) :
    (tickStep true i3 (tickStep true i2 (tickStep true i1 s1))).active = 0 ∧
    Ev.halt ∈ (pollTick true (applyInterTick i3 (tickStep true i2 (tickStep true i1 s1)))).2 ∧
    Ev.dZero ∈ (pollTick true (applyInterTick i3 (tickStep true i2 (tickStep true i1 s1)))).2 ∧
    (tickStep true iR sR).badPolls = 0 := by
  have ht1b : (tickStep true i1 s1).badPolls = 1 := by
    rw [tickStep, pollTick_badPolls, applyInterTick_badPolls, h0]
    simp [hb1, kMaxBadPolls]
  have ht1a : (tickStep true i1 s1).active = s1.active := by
    rw [tickStep, pollTick_active, applyInterTick_badPolls, applyInterTick_active, h0]
    simp [hb1, kMaxBadPolls]
  have ht2b : (tickStep true i2 (tickStep true i1 s1)).badPolls = 2 := by
    rw [tickStep, pollTick_badPolls, applyInterTick_badPolls, ht1b]
    simp [hb2, kMaxBadPolls]
  have ht2a : (tickStep true i2 (tickStep true i1 s1)).active = s1.active := by
    rw [tickStep, pollTick_active, applyInterTick_badPolls, applyInterTick_active, ht1b, ht1a]
    simp [hb2, kMaxBadPolls]
  have hu3b : (applyInterTick i3 (tickStep true i2 (tickStep true i1 s1))).badPolls = 2 := by
    rw [applyInterTick_badPolls, ht2b]
  have hu3a : (applyInterTick i3 (tickStep true i2 (tickStep true i1 s1))).active = s1.active := by
    rw [applyInterTick_active, ht2a]
  have hcond : isBadPoll (applyInterTick i3 (tickStep true i2 (tickStep true i1 s1))) = true ∧
      (applyInterTick i3 (tickStep true i2 (tickStep true i1 s1))).active ≠ 0 ∧
      kMaxBadPolls ≤
        (if isBadPoll (applyInterTick i3 (tickStep true i2 (tickStep true i1 s1))) then
          (if (applyInterTick i3 (tickStep true i2 (tickStep true i1 s1))).badPolls < kMaxBadPolls
           then (applyInterTick i3 (tickStep true i2 (tickStep true i1 s1))).badPolls + 1
           else (applyInterTick i3 (tickStep true i2 (tickStep true i1 s1))).badPolls)
         else 0) := by
    refine ⟨hb3, by rw [hu3a]; exact ha, ?_⟩
    simp [hb3, hu3b, kMaxBadPolls]
  refine ⟨?_, ?_, ?_, ?_⟩
  · rw [tickStep, pollTick_active, if_pos hcond]
  · exact pollTick_mem_deact true _ hcond Ev.halt (by simp [deactivateEvs])
  · exact pollTick_mem_deact true _ hcond Ev.dZero (by simp [deactivateEvs])
  · rw [tickStep, pollTick_badPolls]
    simp [hg]

/-- C2 witness: the concrete run of three bad ticks from the active state
with a clear counter, plus a good tick from the same state. -/
theorem c2_witness :
    (c2s.badPolls = 0 ∧ c2s.active ≠ 0 ∧
      isBadPoll (applyInterTick ⟨false, false⟩ c2s) = true ∧
      isBadPoll (applyInterTick ⟨false, false⟩ (tickStep true ⟨false, false⟩ c2s)) = true ∧
      isBadPoll (applyInterTick ⟨false, false⟩
        (tickStep true ⟨false, false⟩ (tickStep true ⟨false, false⟩ c2s))) = true ∧
      isBadPoll (applyInterTick ⟨true, true⟩ c2s) = false) ∧
    ((tickStep true ⟨false, false⟩
        (tickStep true ⟨false, false⟩ (tickStep true ⟨false, false⟩ c2s))).active = 0 ∧
      Ev.halt ∈ (pollTick true (applyInterTick ⟨false, false⟩
        (tickStep true ⟨false, false⟩ (tickStep true ⟨false, false⟩ c2s)))).2 ∧
      Ev.dZero ∈ (pollTick true (applyInterTick ⟨false, false⟩
        (tickStep true ⟨false, false⟩ (tickStep true ⟨false, false⟩ c2s)))).2 ∧
      (tickStep true ⟨true, true⟩ c2s).badPolls = 0) :=
  ⟨⟨by decide, by decide, by decide, by decide, by decide, by decide⟩,
   c2_bad_poll_escalation c2s ⟨false, false⟩ ⟨false, false⟩ ⟨false, false⟩ c2s ⟨true, true⟩
     (by decide) (by decide) (by decide) (by decide) (by decide) (by decide)⟩

/-! ## Claim C6: the history-ring invariant -/

/-- One loop round of `AddToHistory` preserves the ring invariant. -/
theorem histStep_inv (s : HistState) (h : HistInv s) : HistInv (histStep s) := by
  obtain ⟨hlen, htimes⟩ := h
  unfold histStep HistInv
  dsimp only
  by_cases htr : kPosHisLen < ((s.historyTime + 1, ([] : List ℚ)) :: s.history).length
  · rw [if_pos htr]
    refine ⟨?_, ?_⟩
    · rw [List.length_dropLast]
      simp only [List.length_cons]
      omega
    · intro j hj
      rw [List.getD_eq_getElem _ _ hj, List.getElem_dropLast]
      cases j with
      | zero => simp
      | succ k =>
        rw [List.getElem_cons_succ]
        have hk : k < s.history.length := by
          rw [List.length_dropLast, List.length_cons] at hj
          omega
        rw [← List.getD_eq_getElem s.history (0, []) hk, htimes k hk]
        omega
  · rw [if_neg htr]
    refine ⟨?_, ?_⟩
    · simp only [List.length_cons] at htr ⊢
      omega
    · intro j hj
      cases j with
      | zero => simp
      | succ k =>
        rw [List.getD_cons_succ]
        have hk : k < s.history.length := by
          simp only [List.length_cons] at hj
          omega
        rw [htimes k hk]
        omega

/-- One loop round never empties the ring and never shrinks a non-empty ring
to nothing. -/
theorem histStep_ne_nil (s : HistState) : (histStep s).history ≠ [] := by
  unfold histStep
  dsimp only
  by_cases htr : kPosHisLen < ((s.historyTime + 1, ([] : List ℚ)) :: s.history).length
  · rw [if_pos htr]
    have : ((s.historyTime + 1, ([] : List ℚ)) :: s.history).dropLast.length =
        s.history.length := by
      rw [List.length_dropLast, List.length_cons]
      omega
    intro he
    rw [he] at this
    simp only [List.length_cons, List.length_nil] at this htr
    rw [kPosHisLen] at htr
    omega
  · rw [if_neg htr]
    simp

/-- The advance loop of `AddToHistory` preserves the ring invariant and
non-emptiness. -/
theorem advanceN_inv (n : ℕ) : ∀ s : HistState, HistInv s →
    HistInv (advanceN n s) ∧ (s.history ≠ [] → (advanceN n s).history ≠ []) := by
  induction n with
  | zero => exact fun s h => ⟨h, fun hne => hne⟩
  | succ n ih =>
    intro s h
    rw [advanceN]
    obtain ⟨h1, h2⟩ := ih (histStep s) (histStep_inv s h)
    exact ⟨h1, fun _ => h2 (histStep_ne_nil s)⟩

/-- Writing the sampled values into the head entry changes neither the shape
of the ring nor the ghost timestamps. -/
theorem writeHead_inv (s1 : HistState) (i : ℕ) (vs : List ℚ) (h : HistInv s1) :
    HistInv { s1 with history :=
        match s1.history with
        | [] => []
        | e :: rest => (e.1, writeVals e.2 i vs) :: rest } ∧
    (s1.history ≠ [] →
      (match s1.history with
        | ([] : List (ℕ × List ℚ)) => ([] : List (ℕ × List ℚ))
        | e :: rest => (e.1, writeVals e.2 i vs) :: rest) ≠ []) := by
  obtain ⟨hlen, htimes⟩ := h
  cases hh : s1.history with
  | nil =>
    exact ⟨⟨by simp [kPosHisLen], fun j hj => by simp at hj⟩, fun hne => absurd rfl hne⟩
  | cons e rest =>
    refine ⟨⟨?_, ?_⟩, fun _ => by simp⟩
    · simpa [hh] using hlen
    · intro j hj
      simp only [List.length_cons] at hj
      cases j with
      | zero =>
        simp only [List.getD_cons_zero]
        have := htimes 0 (by rw [hh]; simp)
        rw [hh] at this
        simpa using this
      | succ k =>
        simp only [List.getD_cons_succ]
        have := htimes (k + 1) (by rw [hh]; simpa using hj)
        rw [hh, List.getD_cons_succ] at this
        exact this

/-- C6: every call to `AddToHistory` preserves the history-ring invariant —
the ring holds at most `kPosHisLen = 600` entries, the head entry corresponds
to wall-clock second `historyTime` and the entry at index `j` to second
`historyTime - j` — and leaves the ring non-empty and returns `t`. -/
theorem c6_history_invariant (t i : ℕ) (vals : Option (List ℚ)) (s : HistState)
    (h : HistInv s) :
    HistInv (AddToHistory t i vals s).1 ∧ (AddToHistory t i vals s).1.history ≠ [] ∧
    (AddToHistory t i vals s).2 = t := by
  unfold AddToHistory
  by_cases hemp : s.history.isEmpty
  · rw [if_pos hemp]
    have hbase : HistInv { history := [(t, ([] : List ℚ))], historyTime := t } := by
      refine ⟨by simp [kPosHisLen], ?_⟩
      intro j hj
      simp only [List.length_singleton] at hj
      interval_cases j
      simp
    cases vals with
    | none => exact ⟨hbase, by simp, rfl⟩
    | some vs =>
      obtain ⟨hw1, hw2⟩ := writeHead_inv { history := [(t, [])], historyTime := t } i vs hbase
      exact ⟨hw1, hw2 (by simp), rfl⟩
  · rw [if_neg hemp]
    have hne : s.history ≠ [] := by
      simpa [List.isEmpty_iff] using hemp
    obtain ⟨ha1, ha2⟩ := advanceN_inv (t - s.historyTime) s h
    cases vals with
    | none => exact ⟨ha1, ha2 hne, rfl⟩
    | some vs =>
      obtain ⟨hw1, hw2⟩ := writeHead_inv (advanceN (t - s.historyTime) s) i vs ha1
      exact ⟨hw1, hw2 (ha2 hne), rfl⟩

/-- C6 witness: one call on the empty ring, then one on the resulting ring. -/
theorem c6_witness :
    HistInv { history := [], historyTime := 0 } ∧
    (HistInv (AddToHistory 5 0 (some [1, 2, 3]) { history := [], historyTime := 0 }).1 ∧
      (AddToHistory 5 0 (some [1, 2, 3]) { history := [], historyTime := 0 }).1.history ≠ [] ∧
      (AddToHistory 5 0 (some [1, 2, 3]) { history := [], historyTime := 0 }).2 = 5) :=
  ⟨by constructor <;> simp [HistInv, kPosHisLen],
   c6_history_invariant 5 0 (some [1, 2, 3]) { history := [], historyTime := 0 }
     (by constructor <;> simp [HistInv, kPosHisLen])⟩

/-! ## Claim C9: calibration anchors are interpolated exactly -/

/-- C9: for a calibration table whose anchor points have strictly increasing
raw coordinates (the tables are sorted by increasing raw value) and at least
two anchors, a raw reading equal to some anchor's raw coordinate is mapped by
the interpolation loop of `Calculate` exactly to that anchor's calibrated
coordinate, in exact rational arithmetic. -/
theorem c9_anchor_exact (cal : List (ℚ × ℚ)) :
    List.Pairwise (fun a b => a.1 < b.1) cal → 2 ≤ cal.length →
    ∀ ar ac : ℚ, (ar, ac) ∈ cal → interpolate cal ar = ac := by
  induction cal with
  | nil =>
    intro _ hlen
    simp at hlen
  | cons x l ih =>
    intro hmono hlen ar ac ha
    cases l with
    | nil => simp at hlen
    | cons y rest =>
      obtain ⟨r0, c0⟩ := x
      obtain ⟨r1, c1⟩ := y
      rw [List.pairwise_cons] at hmono
      obtain ⟨hx, hmono2⟩ := hmono
      have h01 : r0 < r1 := by
        have := hx (r1, c1) (by simp)
        simpa using this
      have hne : r1 - r0 ≠ 0 := sub_ne_zero.mpr (ne_of_gt h01)
      rcases List.mem_cons.mp ha with heq | ha2
      · -- the anchor is the first point of the table
        rw [Prod.mk.injEq] at heq
        obtain ⟨rfl, rfl⟩ := heq
        simp only [interpolate]
        rw [if_pos (Or.inr (le_of_lt h01))]
        rw [sub_self, zero_mul, zero_div, add_zero]
      · -- the anchor is in the tail, so its raw value is at least r1
        have h1a : r1 ≤ ar := by
          rcases List.mem_cons.mp ha2 with heq2 | hmem
          · rw [Prod.mk.injEq] at heq2
            exact le_of_eq heq2.1.symm
          · rw [List.pairwise_cons] at hmono2
            exact le_of_lt (by simpa using hmono2.1 (ar, ac) hmem)
        by_cases hrest : rest = []
        · -- last segment: the anchor is the right endpoint
          subst hrest
          have heq2 : (ar, ac) = (r1, c1) := by simpa using ha2
          rw [Prod.mk.injEq] at heq2
          obtain ⟨rfl, rfl⟩ := heq2
          simp only [interpolate]
          rw [if_pos (Or.inl trivial)]
          rw [mul_comm, mul_div_assoc, div_self hne, mul_one]
          ring
        · by_cases hge : ar ≤ r1
          · -- the loop stops at this segment and ar = r1 exactly
            have har : ar = r1 := le_antisymm hge h1a
            have hac : ac = c1 := by
              rcases List.mem_cons.mp ha2 with heq2 | hmem
              · rw [Prod.mk.injEq] at heq2
                exact heq2.2
              · exfalso
                rw [List.pairwise_cons] at hmono2
                have hlt := hmono2.1 (ar, ac) hmem
                simp only at hlt
                exact absurd (har ▸ hlt) (lt_irrefl r1)
            subst har
            subst hac
            simp only [interpolate]
            rw [if_pos (Or.inr le_rfl)]
            rw [mul_comm, mul_div_assoc, div_self hne, mul_one]
            ring
          · -- the loop moves on to the next segment
            simp only [interpolate]
            rw [if_neg (not_or.mpr ⟨hrest, hge⟩)]
            refine ih hmono2 ?_ ar ac ha2
            have hpos := List.length_pos.mpr hrest
            simp only [List.length_cons]
            omega

/-- C9 witness: the damper-A calibration table of the source evaluated at its
second anchor. -/
theorem c9_witness :
    List.Pairwise (fun a b => a.1 < b.1) [((20706 : ℚ), (0 : ℚ)), (33943, 2)] ∧
    2 ≤ ([((20706 : ℚ), (0 : ℚ)), (33943, 2)]).length ∧
    ((33943 : ℚ), (2 : ℚ)) ∈ [((20706 : ℚ), (0 : ℚ)), (33943, 2)] ∧
    interpolate [((20706 : ℚ), (0 : ℚ)), (33943, 2)] 33943 = 2 :=
  ⟨by simp [List.pairwise_cons]; norm_num, by simp, by simp,
   c9_anchor_exact [((20706 : ℚ), (0 : ℚ)), (33943, 2)]
     (by simp [List.pairwise_cons]; norm_num) (by simp) 33943 2 (by simp)⟩

/-! ## Claim C8: unprefixed response lines -/

/-- A packet without NUL bytes is unchanged by the NUL truncation. -/
theorem stripNul_of_no_nul (l : List Char) (h : ∀ c ∈ l, c ≠ Char.ofNat 0) :
    stripNul l = l := by
  rw [stripNul, List.takeWhile_eq_self_iff]
  intro x hx
  exact decide_eq_true (h x hx)

/-- Splitting a newline-free string yields the string itself. -/
theorem splitNL_of_no_newline (t : List Char) (h : '\n' ∉ t) : splitNL t = [t] := by
  induction t with
  | nil => rfl
  | cons c cs ih =>
    have hc : ¬ c = '\n' := fun hh => h (hh ▸ List.mem_cons_self c cs)
    rw [splitNL, if_neg hc, ih (fun hm => h (List.mem_cons_of_mem c hm))]

/-- C8 counterexample: in the packet `"f.OK x\nOK m1 SPD=5"` the second line
lacks the `ID.` prefix, and `HandleData` processes it under the retained
response ID `'f'` (updating the motor shadow, not the operator log), so the
continuation is not processed as `'e'`. -/
theorem c8_counterexample :
    HandleData ("f.OK x\nOK m1 SPD=5".toList) =
      [Ev.processed 'f' ("x".toList), Ev.processed 'f' ("m1 SPD=5".toList)] ∧
    ('f' : Char) ≠ 'e' := by
  decide

/-- Splitting never produces the empty list of lines. -/
theorem splitNL_ne_nil (l : List Char) : splitNL l ≠ [] := by
  induction l with
  | nil => simp [splitNL]
  | cons c cs ih =>
    rw [splitNL]
    split
    · simp
    · cases h : splitNL cs with
      | nil => exact absurd h ih
      | cons a as => simp

/-- Splitting distributes over a newline: the segments of the left part are
followed by the segments of the right part. -/
theorem splitNL_append (xs ys : List Char) :
    splitNL (xs ++ '\n' :: ys) = splitNL xs ++ splitNL ys := by
  induction xs with
  | nil => simp [splitNL]
  | cons c cs ih =>
    by_cases hc : c = '\n'
    · subst hc
      rw [List.cons_append, splitNL, if_pos rfl, splitNL, if_pos rfl, ih]
      simp
    · rw [List.cons_append, splitNL, if_neg hc, ih, splitNL, if_neg hc]
      cases h : splitNL cs with
      | nil => exact absurd h (splitNL_ne_nil cs)
      | cons a as => simp

/-- Processing one line prepends that line's events and continues with the
updated retained ID. -/
theorem handleDataLines_cons (id : Option Char) (line : List Char)
    (rest : List (List Char)) :
    handleDataLines id (line :: rest) =
      oneLineEvents id line ++ handleDataLines (lineId id line) rest := by
  by_cases hemp : line.length = 0
  · rw [handleDataLines, if_pos hemp, oneLineEvents, if_pos hemp, lineId, if_pos hemp]
    simp
  · by_cases hpre : 4 ≤ line.length ∧ line.get? 1 = some '.'
    · rw [handleDataLines, if_neg hemp, oneLineEvents, if_neg hemp, lineId, if_neg hemp,
        if_pos hpre]
      simp only [if_pos hpre]
      by_cases he : line.head? = some 'e'
      · simp [he]
      · cases hh : line.head? with
        | none => by_cases hok : (line.drop 2).take 2 = ['O', 'K'] <;> simp [hh, hok]
        | some c =>
          rw [hh] at he
          by_cases hok : (line.drop 2).take 2 = ['O', 'K'] <;> simp [hh, he, hok]
    · rw [handleDataLines, if_neg hemp, oneLineEvents, if_neg hemp, lineId, if_neg hemp,
        if_neg hpre]
      simp only [if_neg hpre]
      by_cases he : id = some 'e'
      · simp [he]
      · cases hh : id with
        | none => by_cases hok : line.take 2 = ['O', 'K'] <;> simp [hh, hok]
        | some c =>
          rw [hh] at he
          by_cases hok : line.take 2 = ['O', 'K'] <;> simp [hh, he, hok]

/-- The line loop distributes over an append of line lists, the second part
running under the retained ID left by the first. -/
theorem handleDataLines_append (id : Option Char) (l1 l2 : List (List Char)) :
    handleDataLines id (l1 ++ l2) =
      handleDataLines id l1 ++ handleDataLines (lastId id l1) l2 := by
  induction l1 generalizing id with
  | nil => simp [handleDataLines, lastId]
  | cons line rest ih =>
    rw [List.cons_append, handleDataLines_cons, handleDataLines_cons, ih, lastId]
    simp [List.append_assoc]

/-- A line lacking the `ID.` prefix never changes the retained response ID. -/
theorem lineId_unprefixed (id : Option Char) (t : List Char)
    (h4 : ¬(4 ≤ t.length ∧ t.get? 1 = some '.')) : lineId id t = id := by
  rw [lineId]
  by_cases hemp : t.length = 0
  · rw [if_pos hemp]
  · rw [if_neg hemp, if_neg h4]

/-- For a non-empty line lacking the `ID.` prefix, the loop body emits exactly
the continuation events of the retained response ID. -/
theorem oneLineEvents_unprefixed (id : Option Char) (t : List Char) (h1 : t ≠ [])
    (h4 : ¬(4 ≤ t.length ∧ t.get? 1 = some '.')) :
    oneLineEvents id t = contEvents id t := by
  have h1l : ¬ t.length = 0 := by
    simpa [List.length_eq_zero] using h1
  rw [oneLineEvents, if_neg h1l]
  rw [if_neg h4]
  rw [contEvents.eq_def]

/-- No NUL byte occurs in a packet assembled from NUL-free pieces around a
newline. -/
theorem no_nul_append (p t : List Char) (hp : Char.ofNat 0 ∉ p)
    (h3 : Char.ofNat 0 ∉ t) : ∀ c ∈ p ++ '\n' :: t, c ≠ Char.ofNat 0 := by
  intro c hc
  rcases List.mem_append.mp hc with hcp | hct
  · exact fun hh => hp (hh ▸ hcp)
  · rcases List.mem_cons.mp hct with rfl | hct2
    · decide
    · exact fun hh => h3 (hh ▸ hct2)

/-- C8 (amended): for every incoming USB packet, a response line that lacks
the leading `ID.` prefix is treated as a continuation of the most recent
`ID.`-prefixed line earlier in the same packet: when that retained response
ID is `'e'`, the line is processed with response ID `'e'` (operator output);
when it is some other ID, the line is processed under that ID only if it
carries the `OK` prefix and is otherwise logged as a bad response and
skipped; when no prefixed line precedes it, it is processed under no ID
(logged bad, or dropped if `OK`-prefixed).  The line leaves the retained ID
unchanged for the rest of the packet.  Stated for an unprefixed line `t`
after an arbitrary NUL-free packet prefix `p`, both as the packet's final
line and followed by an arbitrary NUL-free remainder `q`. -/
theorem c8_unprefixed_continuation :
    (∀ p t : List Char, Char.ofNat 0 ∉ p → t ≠ [] → '\n' ∉ t → Char.ofNat 0 ∉ t →
      ¬(4 ≤ t.length ∧ t.get? 1 = some '.') →
      HandleData (p ++ '\n' :: t) =
        HandleData p ++ contEvents (lastId none (splitNL p)) t) ∧
    (∀ p t q : List Char, Char.ofNat 0 ∉ p → t ≠ [] → '\n' ∉ t → Char.ofNat 0 ∉ t →
      ¬(4 ≤ t.length ∧ t.get? 1 = some '.') → Char.ofNat 0 ∉ q →
      HandleData (p ++ '\n' :: (t ++ '\n' :: q)) =
        HandleData p ++ contEvents (lastId none (splitNL p)) t ++
          handleDataLines (lastId none (splitNL p)) (splitNL q)) := by
  constructor
  · intro p t hp h1 h2 h3 h4
    rw [HandleData, stripNul_of_no_nul _ (no_nul_append p t hp h3), splitNL_append,
      splitNL_of_no_newline t h2, HandleData, stripNul_of_no_nul _ (fun c hc hh => hp (hh ▸ hc)),
      handleDataLines_append, handleDataLines_cons,
      oneLineEvents_unprefixed _ t h1 h4]
    simp [handleDataLines]
  · intro p t q hp h1 h2 h3 h4 hq
    have hnul : ∀ c ∈ p ++ '\n' :: (t ++ '\n' :: q), c ≠ Char.ofNat 0 := by
      intro c hc
      rcases List.mem_append.mp hc with hcp | hct
      · exact fun hh => hp (hh ▸ hcp)
      · rcases List.mem_cons.mp hct with rfl | hct2
        · decide
        · rcases List.mem_append.mp hct2 with hct3 | hct4
          · exact fun hh => h3 (hh ▸ hct3)
          · rcases List.mem_cons.mp hct4 with rfl | hct5
            · decide
            · exact fun hh => hq (hh ▸ hct5)
    rw [HandleData, stripNul_of_no_nul _ hnul, splitNL_append, splitNL_append,
      splitNL_of_no_newline t h2, handleDataLines_append, List.singleton_append,
      handleDataLines_cons, oneLineEvents_unprefixed _ t h1 h4, lineId_unprefixed _ t h4,
      HandleData, stripNul_of_no_nul _ (fun c hc hh => hp (hh ▸ hc))]
    simp [List.append_assoc]

/-- C8 witness: the amended claim applied after an `f.` response — the
retained ID is `'f'` and the `OK`-prefixed continuation is consumed under it
— and, with a packet remainder, after an `e.` response. -/
theorem c8_witness :
    (Char.ofNat 0 ∉ "f.OK x".toList ∧ "OK m1 SPD=5".toList ≠ [] ∧
      '\n' ∉ "OK m1 SPD=5".toList ∧ Char.ofNat 0 ∉ "OK m1 SPD=5".toList ∧
      ¬(4 ≤ ("OK m1 SPD=5".toList).length ∧ ("OK m1 SPD=5".toList).get? 1 = some '.')) ∧
    lastId none (splitNL ("f.OK x".toList)) = some 'f' ∧
    HandleData ("f.OK x".toList ++ '\n' :: "OK m1 SPD=5".toList) =
      HandleData ("f.OK x".toList) ++
        contEvents (lastId none (splitNL ("f.OK x".toList))) ("OK m1 SPD=5".toList) ∧
    HandleData ("e.op".toList ++ '\n' :: ("hello".toList ++ '\n' :: "b.OK v1".toList)) =
      HandleData ("e.op".toList) ++
        contEvents (lastId none (splitNL ("e.op".toList))) ("hello".toList) ++
        handleDataLines (lastId none (splitNL ("e.op".toList))) (splitNL ("b.OK v1".toList)) :=
  ⟨by decide, by decide,
   c8_unprefixed_continuation.1 ("f.OK x".toList) ("OK m1 SPD=5".toList)
     (by decide) (by decide) (by decide) (by decide) (by decide),
   c8_unprefixed_continuation.2 ("e.op".toList) ("hello".toList) ("b.OK v1".toList)
     (by decide) (by decide) (by decide) (by decide) (by decide) (by decide)⟩
